import Mathlib

/-!
Shallow embedding of the lyrics-document pipeline of this repository.

Two variants of the token-to-sentence pipeline exist in the source:
* `src/song_parser/parse_lyrics.py` — `clean_word`, `detect_sentence_breaks`,
  `identify_target_words`, `words_to_lyrics_data`;
* `src/_python/song_lyrics/simple_whisper_parser.py` — the word loop of `main`
  (embedded below as `simpleParse`).

Machine floats are modelled as rationals; `round(x, n)` is modelled as exact
decimal rounding with the round-half-to-even tie rule used by Python
(all concrete inputs below stay away from ties).  Python strings are Lean
`String`s; `str.strip` and friends are re-implemented over the character list.
-/

/-- `l` with the longest suffix of characters satisfying `p` removed
(list version of the right half of Python's `str.strip`). -/
def dropTrailing (p : Char → Bool) (l : List Char) : List Char :=
  (l.reverse.dropWhile p).reverse

/-- Python `str.strip(chars)` restricted to a character predicate: remove the
longest prefix and suffix of characters satisfying `p`. -/
def pyStrip (p : Char → Bool) (s : String) : String :=
  String.mk (dropTrailing p (s.data.dropWhile p))

/-- The punctuation set stripped by `clean_word`: `.,!?;:"()[]{}`. -/
def cleanPunct : List Char :=
  ['.', ',', '!', '?', ';', ':', '\"', '(', ')', '[', ']', '\x7b', '\x7d']

/-- `clean_word` from parse_lyrics.py: `word.strip().strip('.,!?;:"()[]{}')` —
first strip surrounding whitespace, then strip the punctuation set from both
ends. -/
def clean_word (word : String) : String :=
  pyStrip (fun c => cleanPunct.contains c) (pyStrip Char.isWhitespace word)

/-- Python `str.lower`, re-implemented over the character list. -/
def pyLower (s : String) : String :=
  String.mk (s.data.map Char.toLower)

/-- Python `str.isalpha`: non-empty and all characters alphabetic. -/
def pyIsAlpha (s : String) : Bool :=
  !s.data.isEmpty && s.data.all Char.isAlpha

/-- Round a rational to the nearest integer, ties to even (Python's `round`). -/
def rndHalfEven (q : ℚ) : ℤ :=
  let f := ⌊q⌋
  let r := q - (f : ℚ)
  if r < 1/2 then f
  else if 1/2 < r then f + 1
  else if f % 2 = 0 then f else f + 1

/-- Python `round(q, 2)` on exact rationals. -/
def pyRound2 (q : ℚ) : ℚ :=
  (rndHalfEven (q * 100) : ℚ) / 100

/-- Python `round(q, 3)` on exact rationals. -/
def pyRound3 (q : ℚ) : ℚ :=
  (rndHalfEven (q * 1000) : ℚ) / 1000

/-- One recognized word token from the transcription engine: raw text, start
and end timestamps in seconds, optional confidence. -/
structure Token where
  word : String
  start : ℚ
  «end» : ℚ
  confidence : Option ℚ
deriving DecidableEq, Repr

instance : Inhabited Token := ⟨⟨"", 0, 0, none⟩⟩

/-- Output word entry: `{text, start_time, end_time, target_word}`. -/
structure WordEntry where
  text : String
  start_time : ℚ
  end_time : ℚ
  target_word : Bool
deriving DecidableEq, Repr

instance : Inhabited WordEntry := ⟨⟨"", 0, 0, false⟩⟩

/-- One sentence group of the full-variant document:
`{"image": None, "words": [...]}`. -/
structure SentenceGroup where
  image : Option String
  words : List WordEntry
deriving DecidableEq, Repr

instance : Inhabited SentenceGroup := ⟨⟨none, []⟩⟩

/-- One `full_sentence` summary record of the full-variant document. -/
structure FullSentence where
  text : String
  start_time : ℚ
  end_time : ℚ
  duration : ℚ
deriving DecidableEq, Repr

/-- The assembled lyrics document of parse_lyrics.py. -/
structure LyricsData where
  offset : ℚ
  outro : ℚ
  song_source : String
  music_source : String
  full_sentence : List FullSentence
  sentences : List SentenceGroup
deriving DecidableEq, Repr

instance : Inhabited LyricsData := ⟨⟨0, 0, "", "", [], []⟩⟩

/-- `re.search(r'[.!?]', s)`: the text contains a sentence-ending mark
anywhere. -/
def hasSentencePunct (s : String) : Bool :=
  s.data.any fun c => c == '.' || c == '!' || c == '?'

/-- The break decision of `detect_sentence_breaks` at index `i`: punctuation
anywhere in the raw text, else (for non-final tokens) a gap `> 0.5` s to the
next token's start. -/
def breakCond (words : List Token) (i : ℕ) : Bool :=
  let word := words.getD i default
  if hasSentencePunct word.word then true
  else if i < words.length - 1 then
    decide ((words.getD (i + 1) default).start - word.«end» > 1/2)
  else false

/-- `detect_sentence_breaks` from parse_lyrics.py: collect the indices where a
punctuation or pause break fires, then ensure the list ends with the last
index. -/
def detect_sentence_breaks (words : List Token) : List ℕ :=
  let sentence_breaks := (List.range words.length).filter (breakCond words)
  if 0 < words.length ∧
      (sentence_breaks = [] ∨ sentence_breaks.getLast? ≠ some (words.length - 1))
  then sentence_breaks ++ [words.length - 1]
  else sentence_breaks

/-- The fixed filler-word set of `identify_target_words`. -/
def filler_words : List String :=
  ["the", "and", "or", "but", "in", "on", "at", "to", "for", "of", "with", "by"]

/-- The selection predicate of `identify_target_words`: confidence (absent
treated as `0.0`) at least `min_confidence`, cleaned length at least
`min_length`, lowercased cleaned text not a filler word, cleaned text purely
alphabetic. -/
def is_target_word (min_confidence : ℚ) (min_length : ℕ) (word : Token) : Bool :=
  let clean_text := clean_word word.word
  let confidence := (word.confidence.getD 0)
  decide (min_confidence ≤ confidence) &&
    decide (min_length ≤ clean_text.length) &&
    !(filler_words.contains (pyLower clean_text)) &&
    pyIsAlpha clean_text

/-- `identify_target_words` from parse_lyrics.py. -/
def identify_target_words (words : List Token) (min_confidence : ℚ)
    (min_length : ℕ) : List Token :=
  words.filter (is_target_word min_confidence min_length)

/-- `target_word_texts` as built in `words_to_lyrics_data`: the lowercased
cleaned texts of the tokens selected with the default thresholds
(`min_confidence = 0.85`, `min_length = 4`). -/
def target_texts (words : List Token) : List String :=
  (identify_target_words words (85/100) 4).map fun tw => pyLower (clean_word tw.word)

/-- One output word entry as built inside `words_to_lyrics_data`: cleaned text,
rounded times, and the target flag looked up by lowercased cleaned text. -/
def mkWordEntry (target_word_texts : List String) (word : Token) : WordEntry :=
  { text := clean_word word.word
    start_time := pyRound2 word.start
    end_time := pyRound2 word.«end»
    target_word := target_word_texts.contains (pyLower (clean_word word.word)) }

/-- The tokens of the inner loop `for i in range(sentence_start, break_index + 1)`
that survive the empty-cleaned-text filter. -/
def keptSlice (words : List Token) (sentence_start break_index : ℕ) : List Token :=
  ((words.take (break_index + 1)).drop sentence_start).filter
    fun w => clean_word w.word != ""

/-- The outer loop of `words_to_lyrics_data`: walk the break indices, carrying
`sentence_start`, and emit a sentence group plus a full-sentence summary for
every non-empty kept slice. -/
def buildGroups (words : List Token) (tset : List String) :
    ℕ → List ℕ → List SentenceGroup × List FullSentence
  | _, [] => ([], [])
  | sentence_start, break_index :: rest =>
    let kept := keptSlice words sentence_start break_index
    let tail := buildGroups words tset (break_index + 1) rest
    match kept with
    | [] => tail
    | w0 :: ws =>
      let wlast := (w0 :: ws).getLastD w0
      ({ image := none, words := (w0 :: ws).map (mkWordEntry tset) } :: tail.1,
       { text := String.intercalate " " ((w0 :: ws).map fun w => clean_word w.word)
         start_time := pyRound2 w0.start
         end_time := pyRound2 wlast.«end»
         duration := pyRound2 (wlast.«end» - w0.start) } :: tail.2)

/-- `Path(filename).stem`, modelled as a pure string operation: the final
path component without its last extension. -/
def path_stem (filename : String) : String :=
  let base := ((filename.data.splitOn '/').getLastD filename.data)
  let noExt := dropTrailing (fun c => c != '.') base
  if noExt = [] then String.mk base else String.mk (noExt.dropLast)

/-- `words_to_lyrics_data` from parse_lyrics.py: `None` on an empty token
list; otherwise segment, tag targets, assemble the document, and compute
`offset` (rounded start of the first full sentence, else `0.0`) and `outro`
(`max(0, total_duration − last end)` when sentences exist and
`total_duration > 0`, else the fallback `3.0`). -/
def words_to_lyrics_data (words : List Token) (filename : String)
    (total_duration : ℚ) : Option LyricsData :=
  if words = [] then none
  else
    let sentence_breaks := detect_sentence_breaks words
    let target_word_texts := target_texts words
    let gs := buildGroups words target_word_texts 0 sentence_breaks
    let base_name := path_stem filename
    let offset : ℚ :=
      match gs.2.head? with
      | some fs => fs.start_time
      | none => 0
    let outro : ℚ :=
      match gs.2.getLast? with
      | some fs => if 0 < total_duration then max 0 (total_duration - fs.end_time) else 3
      | none => 3
    some { offset := pyRound2 offset
           outro := pyRound2 outro
           song_source := base_name ++ ".mp3"
           music_source := base_name ++ "-instrumental.mp3"
           full_sentence := gs.2
           sentences := gs.1 }

/-- `re.search(r'[.!?,:;]$', s)` from simple_whisper_parser.py: the text ends
with one of the extended break marks. -/
def endsWithBreakPunct (s : String) : Bool :=
  match s.data.getLast? with
  | some c => c == '.' || c == '!' || c == '?' || c == ',' || c == ':' || c == ';'
  | none => false

/-- `re.search(r'\n|—|–', s)`: the text contains a newline, em dash or en dash
anywhere. -/
def hasDashOrNewline (s : String) : Bool :=
  s.data.any fun c => c == '\n' || c == '—' || c == '–'

/-- Python `list.index`: position of the first element equal to `x` (the
length when absent; the source only evaluates it on present elements). -/
def pyIndex [DecidableEq α] : List α → α → ℕ
  | [], _ => 0
  | a :: l, x => if a = x then 0 else pyIndex l x + 1

/-- One word entry as built in the simple_whisper_parser loop: stripped text,
times rounded to three decimals, `target_word` unconditionally false. -/
def mkSimpleEntry (word_data : Token) (word_text : String) : WordEntry :=
  { text := word_text
    start_time := pyRound3 word_data.start
    end_time := pyRound3 word_data.«end»
    target_word := false }

/-- The `should_break` decision of simple_whisper_parser.py, evaluated after
appending the current entry: trailing punctuation; else a gap `> 0.4` s
computed at `all_words.index(word_data)` (the first occurrence equal to the
current token); else 12 accumulated words; else an embedded dash or newline. -/
def simpleShouldBreak (all_words : List Token) (word_data : Token)
    (word_text : String) (current_sentence : List WordEntry) : Bool :=
  if endsWithBreakPunct word_text then true
  else if 0 < current_sentence.length &&
      pyIndex all_words word_data + 1 < all_words.length &&
      decide ((all_words.getD (pyIndex all_words word_data + 1) default).start
        - word_data.«end» > 2/5) then true
  else if 12 ≤ current_sentence.length then true
  else if hasDashOrNewline word_text then true
  else false

/-- One iteration of the word loop of simple_whisper_parser.py: skip
whitespace-only tokens, append the entry to the pending sentence, and flush
the pending sentence when `should_break` fires. -/
def simpleStep (all_words : List Token)
    (acc : List (List WordEntry) × List WordEntry) (word_data : Token) :
    List (List WordEntry) × List WordEntry :=
  let word_text := pyStrip Char.isWhitespace word_data.word
  if word_text = "" then acc
  else
    let current := acc.2 ++ [mkSimpleEntry word_data word_text]
    if simpleShouldBreak all_words word_data word_text current
    then (acc.1 ++ [current], [])
    else (acc.1, current)

/-- The sentence loop of simple_whisper_parser.py `main`: fold the word loop
over the token sequence, then seal the final pending sentence if non-empty.
Each output element is the `words` list of one emitted sentence. -/
def simpleParse (all_words : List Token) : List (List WordEntry) :=
  let r := all_words.foldl (simpleStep all_words) ([], [])
  if r.2 = [] then r.1 else r.1 ++ [r.2]

/-! ### Helper lemmas: slices and break chains -/

/-- The default value of `getLastD` is irrelevant on a non-empty list. -/
lemma getLastD_default_irrel (a : α) (l : List α) (d d₁ : α) :
    (a :: l).getLastD d = (a :: l).getLastD d₁ := by
  rw [List.getLastD_cons, List.getLastD_cons]

lemma getLastD_concat_val (x d : α) : ∀ (l : List α), (l ++ [x]).getLastD d = x := by
  intro l
  induction l generalizing d with
  | nil => rfl
  | cons a l ih => rw [List.cons_append, List.getLastD_cons]; exact ih a

/-- Gluing of contiguous take/drop slices. -/
lemma take_drop_glue (l : List α) (s m t : ℕ) (h1 : s ≤ m) (h2 : m ≤ t)
    (h3 : m ≤ l.length) :
    (l.take m).drop s ++ (l.take t).drop m = (l.take t).drop s := by
  have hm : (l.take t).take m = l.take m := by
    rw [List.take_take, min_eq_left h2]
  have hsplit : l.take t = l.take m ++ (l.take t).drop m := by
    conv_lhs => rw [← List.take_append_drop m (l.take t)]
    rw [hm]
  have hlen : (l.take m).length = m := by
    rw [List.length_take, min_eq_left h3]
  conv_rhs => rw [hsplit]
  rw [List.drop_append_eq_append_drop, hlen, Nat.sub_eq_zero_of_le h1, List.drop_zero]

/-- Well-formedness of a break-index chain starting at `s`: each break is in
range and no earlier than the current sentence start. -/
def okChain (len : ℕ) : ℕ → List ℕ → Prop
  | _, [] => True
  | s, b :: bs => s ≤ b + 1 ∧ b < len ∧ okChain len (b + 1) bs

lemma okChain_le_last (len : ℕ) :
    ∀ (bs : List ℕ) (s : ℕ), okChain len s bs → s ≤ bs.getLastD (s - 1) + 1 := by
  intro bs
  induction bs with
  | nil => intro s _; simp [List.getLastD]; omega
  | cons b rest ih =>
    intro s h
    obtain ⟨h1, _, h3⟩ := h
    have hih := ih (b + 1) h3
    rw [Nat.add_sub_cancel] at hih
    rw [List.getLastD_cons]
    omega

lemma okChain_mono (len len₁ : ℕ) (hl : len ≤ len₁) :
    ∀ (bs : List ℕ) (s : ℕ), okChain len s bs → okChain len₁ s bs := by
  intro bs
  induction bs with
  | nil => intro s _; trivial
  | cons b rest ih =>
    intro s h
    exact ⟨h.1, lt_of_lt_of_le h.2.1 hl, ih (b + 1) h.2.2⟩

lemma okChain_last_lt (len : ℕ) :
    ∀ (bs : List ℕ) (s : ℕ), okChain len s bs → bs ≠ [] → bs.getLastD 0 < len := by
  intro bs
  induction bs with
  | nil => intro s _ hne; exact absurd rfl hne
  | cons b rest ih =>
    intro s h _
    rw [List.getLastD_cons]
    cases rest with
    | nil => exact h.2.1
    | cons b₁ rest₁ =>
      have hih := ih (b + 1) h.2.2 (by simp)
      rw [List.getLastD_cons] at hih ⊢
      exact hih

lemma okChain_snoc (len : ℕ) :
    ∀ (bs : List ℕ) (s x : ℕ), okChain len s bs → s ≤ x + 1 →
      bs.getLastD 0 ≤ x → x < len → okChain len s (bs ++ [x]) := by
  intro bs
  induction bs with
  | nil => intro s x _ h1 _ h3; exact ⟨h1, h3, trivial⟩
  | cons b rest ih =>
    intro s x h h1 h2 h3
    rw [List.cons_append]
    rw [List.getLastD_cons] at h2
    refine ⟨h.1, h.2.1, ?_⟩
    cases rest with
    | nil =>
      simp only [List.nil_append]
      have hb : ([] : List ℕ).getLastD b = b := rfl
      rw [hb] at h2
      exact ⟨by omega, h3, trivial⟩
    | cons b₁ rest₁ =>
      apply ih (b + 1) x h.2.2 ?_ ?_ h3
      · have hle := okChain_le_last len (b₁ :: rest₁) (b + 1) h.2.2
        rw [Nat.add_sub_cancel] at hle
        rw [List.getLastD_cons] at h2 hle
        omega
      · rw [List.getLastD_cons] at h2 ⊢
        exact h2

lemma breaks_ok (p : ℕ → Bool) : ∀ n : ℕ, okChain n 0 ((List.range n).filter p) := by
  intro n
  induction n with
  | zero => simp only [List.range_zero, List.filter_nil]; trivial
  | succ n ih =>
    rw [List.range_succ, List.filter_append]
    by_cases hp : p n
    · have hfil : List.filter p [n] = [n] := by simp [hp]
      rw [hfil]
      apply okChain_snoc (n + 1) _ 0 n (okChain_mono n (n + 1) (by omega) _ 0 ih)
        (by omega) ?_ (by omega)
      cases hbs : (List.range n).filter p with
      | nil => simp
      | cons b bs =>
        have := okChain_last_lt n _ 0 (hbs ▸ ih) (by simp)
        omega
    · have hfil : List.filter p [n] = [] := by simp [hp]
      rw [hfil, List.append_nil]
      exact okChain_mono n (n + 1) (by omega) _ 0 ih

/-- The break list produced by `detect_sentence_breaks` is a well-formed chain
from `0` and ends exactly at the last index. -/
lemma detect_ok (words : List Token) (h : words ≠ []) :
    okChain words.length 0 (detect_sentence_breaks words) ∧
      detect_sentence_breaks words ≠ [] ∧
      (detect_sentence_breaks words).getLastD 0 = words.length - 1 := by
  have hlen : 0 < words.length := List.length_pos.mpr h
  unfold detect_sentence_breaks
  by_cases hc : 0 < words.length ∧
      ((List.range words.length).filter (breakCond words) = [] ∨
        ((List.range words.length).filter (breakCond words)).getLast? ≠
          some (words.length - 1))
  · rw [if_pos hc]
    refine ⟨?_, by simp, getLastD_concat_val _ _ _⟩
    apply okChain_snoc words.length _ 0 (words.length - 1)
      (breaks_ok (breakCond words) words.length) (by omega) ?_ (by omega)
    cases hbs : (List.range words.length).filter (breakCond words) with
    | nil => simp
    | cons b bs =>
      have := okChain_last_lt words.length _ 0
        (hbs ▸ breaks_ok (breakCond words) words.length) (by simp)
      omega
  · rw [if_neg hc]
    push_neg at hc
    obtain ⟨hne, hlast⟩ := hc hlen
    refine ⟨breaks_ok (breakCond words) words.length, hne, ?_⟩
    rw [List.getLastD_eq_getLast?, hlast]
    rfl

/-! ### Helper lemmas: the group-building loop of `words_to_lyrics_data` -/

/-- The filter applied to every slice. -/
lemma keptSlice_eq (words : List Token) (s b : ℕ) :
    keptSlice words s b
      = ((words.take (b + 1)).drop s).filter (fun w => clean_word w.word != "") := rfl

/-- Concatenating the word lists of the groups built from a well-formed break
chain yields exactly the filtered tokens of the covered region. -/
lemma buildGroups_join (words : List Token) (tset : List String) :
    ∀ (bs : List ℕ) (s : ℕ), okChain words.length s bs → (0 < s ∨ bs ≠ []) →
      (((buildGroups words tset s bs).1.map SentenceGroup.words).flatten
        = (((words.take (bs.getLastD (s - 1) + 1)).drop s).filter
            (fun w => clean_word w.word != "")).map (mkWordEntry tset)) := by
  intro bs
  induction bs with
  | nil =>
    intro s _ hs
    rcases hs with hs | hs
    · have hdrop : (words.take (s - 1 + 1)).drop s = [] := by
        apply List.drop_eq_nil_of_le
        rw [List.length_take]
        omega
      simp [buildGroups, List.getLastD, hdrop]
    · exact absurd rfl hs
  | cons b rest ih =>
    intro s h _
    obtain ⟨h1, h2, h3⟩ := h
    have hglue : (words.take (b + 1)).drop s ++
        (words.take (rest.getLastD b + 1)).drop (b + 1)
          = (words.take (rest.getLastD b + 1)).drop s := by
      apply take_drop_glue words s (b + 1) (rest.getLastD b + 1) h1 ?_ (by omega)
      have := okChain_le_last words.length rest (b + 1) h3
      rw [Nat.add_sub_cancel] at this
      omega
    have hrest : ((buildGroups words tset (b + 1) rest).1.map SentenceGroup.words).flatten
        = (((words.take (rest.getLastD b + 1)).drop (b + 1)).filter
            (fun w => clean_word w.word != "")).map (mkWordEntry tset) := by
      have := ih (b + 1) h3 (Or.inl (by omega))
      rwa [Nat.add_sub_cancel] at this
    rw [List.getLastD_cons]
    rw [← hglue, List.filter_append, List.map_append, ← keptSlice_eq, ← hrest]
    simp only [buildGroups]
    cases hk : keptSlice words s b with
    | nil => simp
    | cons w0 ws => simp

/-- Every group built by the loop carries `image = None`. -/
lemma buildGroups_image_none (words : List Token) (tset : List String) :
    ∀ (bs : List ℕ) (s : ℕ) (g : SentenceGroup),
      g ∈ (buildGroups words tset s bs).1 → g.image = none := by
  intro bs
  induction bs with
  | nil => intro s g hg; simp [buildGroups] at hg
  | cons b rest ih =>
    intro s g hg
    simp only [buildGroups] at hg
    cases hk : keptSlice words s b with
    | nil =>
      rw [hk] at hg
      exact ih (b + 1) g hg
    | cons w0 ws =>
      rw [hk] at hg
      simp only [List.mem_cons] at hg
      rcases hg with hg | hg
      · subst hg; rfl
      · exact ih (b + 1) g hg

/-- Every group built by the loop has a non-empty word list. -/
lemma buildGroups_words_ne_nil (words : List Token) (tset : List String) :
    ∀ (bs : List ℕ) (s : ℕ) (g : SentenceGroup),
      g ∈ (buildGroups words tset s bs).1 → g.words ≠ [] := by
  intro bs
  induction bs with
  | nil => intro s g hg; simp [buildGroups] at hg
  | cons b rest ih =>
    intro s g hg
    simp only [buildGroups] at hg
    cases hk : keptSlice words s b with
    | nil =>
      rw [hk] at hg
      exact ih (b + 1) g hg
    | cons w0 ws =>
      rw [hk] at hg
      simp only [List.mem_cons] at hg
      rcases hg with hg | hg
      · subst hg; simp
      · exact ih (b + 1) g hg

lemma getLastD_map (f : α → β) :
    ∀ (l : List α) (a : α), (l.map f).getLastD (f a) = f (l.getLastD a) := by
  intro l
  induction l with
  | nil => intro a; rfl
  | cons b l ih =>
    intro a
    rw [List.map_cons, List.getLastD_cons, List.getLastD_cons]
    exact ih b

/-- The full-sentence summaries and the sentence groups are built in lockstep:
the `k`-th summary's start/end times are the `k`-th group's first word's
start time and last word's end time. -/
lemma buildGroups_align (words : List Token) (tset : List String) :
    ∀ (bs : List ℕ) (s : ℕ),
      (buildGroups words tset s bs).2.map (fun fs => (fs.start_time, fs.end_time))
        = (buildGroups words tset s bs).1.map (fun g =>
            ((g.words.headD default).start_time,
             (g.words.getLastD default).end_time)) := by
  intro bs
  induction bs with
  | nil => intro s; rfl
  | cons b rest ih =>
    intro s
    simp only [buildGroups]
    cases hk : keptSlice words s b with
    | nil => exact ih (b + 1)
    | cons w0 ws =>
      simp only [List.map_cons]
      rw [ih (b + 1)]
      congr 1
      simp only [List.map_cons, List.headD_cons, List.getLastD_cons]
      rw [getLastD_map (mkWordEntry tset) ws w0]
      rfl

/-- Unfolding of a successful `words_to_lyrics_data` run into its components. -/
lemma wtld_some_eq (words : List Token) (fn : String) (td : ℚ) (d : LyricsData)
    (h : words_to_lyrics_data words fn td = some d) (hw : words ≠ []) :
    d = { offset := pyRound2 (match (buildGroups words (target_texts words) 0
              (detect_sentence_breaks words)).2.head? with
            | some fs => fs.start_time
            | none => 0)
        , outro := pyRound2 (match (buildGroups words (target_texts words) 0
              (detect_sentence_breaks words)).2.getLast? with
            | some fs => if 0 < td then max 0 (td - fs.end_time) else 3
            | none => 3)
        , song_source := path_stem fn ++ ".mp3"
        , music_source := path_stem fn ++ "-instrumental.mp3"
        , full_sentence := (buildGroups words (target_texts words) 0
            (detect_sentence_breaks words)).2
        , sentences := (buildGroups words (target_texts words) 0
            (detect_sentence_breaks words)).1 } := by
  unfold words_to_lyrics_data at h
  rw [if_neg hw] at h
  exact (Option.some.inj h).symm

/-- The partition equation at the level of `words_to_lyrics_data`. -/
lemma wtld_flatten (words : List Token) (fn : String) (td : ℚ) (d : LyricsData)
    (h : words_to_lyrics_data words fn td = some d) :
    (d.sentences.map SentenceGroup.words).flatten
      = (words.filter (fun w => clean_word w.word != "")).map
          (mkWordEntry (target_texts words)) := by
  have hw : words ≠ [] := by
    intro he
    subst he
    simp [words_to_lyrics_data] at h
  obtain ⟨hok, hne, hlast⟩ := detect_ok words hw
  have hsent : d.sentences = (buildGroups words (target_texts words) 0
      (detect_sentence_breaks words)).1 := by
    rw [wtld_some_eq words fn td d h hw]
  rw [hsent]
  have hj := buildGroups_join words (target_texts words)
    (detect_sentence_breaks words) 0 hok (Or.inr hne)
  rw [hj]
  norm_num at hlast ⊢
  rw [hlast]
  have hl : words.length - 1 + 1 = words.length := by
    have := List.length_pos.mpr hw
    omega
  rw [hl, List.take_length]

/-! ### Rounding lemmas -/

lemma rndHalfEven_intCast (k : ℤ) : rndHalfEven (k : ℚ) = k := by
  unfold rndHalfEven
  rw [Int.floor_intCast]
  norm_num

lemma pyRound2_idem (q : ℚ) : pyRound2 (pyRound2 q) = pyRound2 q := by
  unfold pyRound2
  rw [div_mul_cancel₀ _ (by norm_num : (100:ℚ) ≠ 0), rndHalfEven_intCast]

lemma pyRound2_zero : pyRound2 0 = 0 := by
  unfold pyRound2
  rw [show ((0:ℚ) * 100) = ((0:ℤ):ℚ) by norm_num, rndHalfEven_intCast]
  norm_num

lemma pyRound2_three : pyRound2 3 = 3 := by
  unfold pyRound2
  rw [show ((3:ℚ) * 100) = ((300:ℤ):ℚ) by norm_num, rndHalfEven_intCast]
  norm_num

/-! ### The target-word selector, characterized -/

lemma is_target_word_iff (mc : ℚ) (ml : ℕ) (t : Token) :
    is_target_word mc ml t = true ↔
      mc ≤ t.confidence.getD 0 ∧ ml ≤ (clean_word t.word).length ∧
        pyLower (clean_word t.word) ∉ filler_words ∧
        pyIsAlpha (clean_word t.word) = true := by
  unfold is_target_word
  simp [Bool.and_eq_true, decide_eq_true_eq]
  tauto

lemma target_texts_contains (words : List Token) (key : String) :
    (target_texts words).contains key = true ↔
      ∃ t ∈ words, is_target_word (85/100) 4 t = true ∧
        pyLower (clean_word t.word) = key := by
  unfold target_texts identify_target_words
  simp [List.mem_filter]
  constructor
  · rintro ⟨t, ⟨ht, hc⟩, hk⟩
    exact ⟨t, ht, hc, hk⟩
  · rintro ⟨t, ht, hc, hk⟩
    exact ⟨t, ⟨ht, hc⟩, hk⟩

/-- Every emitted word entry is `mkWordEntry` of a surviving input token. -/
lemma wtld_mem_entry (words : List Token) (fn : String) (td : ℚ) (d : LyricsData)
    (h : words_to_lyrics_data words fn td = some d)
    (g : SentenceGroup) (hg : g ∈ d.sentences) (e : WordEntry) (he : e ∈ g.words) :
    ∃ t ∈ words, clean_word t.word ≠ "" ∧ e = mkWordEntry (target_texts words) t := by
  have hjoin := wtld_flatten words fn td d h
  have hme : e ∈ (d.sentences.map SentenceGroup.words).flatten :=
    List.mem_flatten.mpr ⟨g.words, List.mem_map_of_mem _ hg, he⟩
  rw [hjoin] at hme
  obtain ⟨t, ht, hte⟩ := List.mem_map.mp hme
  obtain ⟨htw, htc⟩ := List.mem_filter.mp ht
  exact ⟨t, htw, by simpa using htc, hte.symm⟩

/-! ### The simple-parser loop, characterized -/

/-- Fold invariant: emitted sentences plus the pending sentence always equal
the entries of the surviving tokens processed so far. -/
lemma simpleStep_flatten (all_words : List Token) :
    ∀ (ws : List Token) (acc : List (List WordEntry) × List WordEntry),
      (ws.foldl (simpleStep all_words) acc).1.flatten ++
          (ws.foldl (simpleStep all_words) acc).2
        = acc.1.flatten ++ acc.2 ++
            (ws.filter (fun w => pyStrip Char.isWhitespace w.word != "")).map
              (fun w => mkSimpleEntry w (pyStrip Char.isWhitespace w.word)) := by
  intro ws
  induction ws with
  | nil => intro acc; simp
  | cons w ws ih =>
    intro acc
    rw [List.foldl_cons, List.filter_cons]
    by_cases hw : pyStrip Char.isWhitespace w.word = ""
    · have hbe : (pyStrip Char.isWhitespace w.word != "") = false := by
        simp [hw]
      rw [hbe]
      have hstep : simpleStep all_words acc w = acc := by
        simp only [simpleStep]
        rw [if_pos hw]
      rw [hstep, ih acc]
      simp
    · have hbe : (pyStrip Char.isWhitespace w.word != "") = true := by
        simp [hw]
      rw [hbe]
      simp only [cond_true]
      by_cases hb : simpleShouldBreak all_words w (pyStrip Char.isWhitespace w.word)
          (acc.2 ++ [mkSimpleEntry w (pyStrip Char.isWhitespace w.word)]) = true
      · have hstep : simpleStep all_words acc w =
            (acc.1 ++ [acc.2 ++ [mkSimpleEntry w (pyStrip Char.isWhitespace w.word)]], []) := by
          simp only [simpleStep]
          rw [if_neg hw, if_pos hb]
        rw [hstep, ih]
        simp
      · have hstep : simpleStep all_words acc w =
            (acc.1, acc.2 ++ [mkSimpleEntry w (pyStrip Char.isWhitespace w.word)]) := by
          simp only [simpleStep]
          rw [if_neg hw, if_neg hb]
        rw [hstep, ih]
        simp

/-- Partition equation for the simple parser: concatenating all emitted
sentences reproduces exactly the entries of the tokens whose stripped text is
non-empty, in order. -/
lemma simpleParse_flatten (all_words : List Token) :
    (simpleParse all_words).flatten
      = (all_words.filter (fun w => pyStrip Char.isWhitespace w.word != "")).map
          (fun w => mkSimpleEntry w (pyStrip Char.isWhitespace w.word)) := by
  unfold simpleParse
  have hinv := simpleStep_flatten all_words all_words ([], [])
  simp only [List.flatten_nil, List.nil_append] at hinv
  by_cases hr : (all_words.foldl (simpleStep all_words) ([], [])).2 = []
  · rw [if_pos hr]
    rw [hr, List.append_nil] at hinv
    exact hinv
  · rw [if_neg hr, List.flatten_append]
    simpa using hinv

/-- Fold invariant: every emitted sentence has at most 12 entries, and the
pending sentence always has fewer than 12. -/
lemma simpleStep_length (all_words : List Token) :
    ∀ (ws : List Token) (acc : List (List WordEntry) × List WordEntry),
      (∀ s ∈ acc.1, s.length ≤ 12) → acc.2.length < 12 →
        (∀ s ∈ (ws.foldl (simpleStep all_words) acc).1, s.length ≤ 12) ∧
          (ws.foldl (simpleStep all_words) acc).2.length < 12 := by
  intro ws
  induction ws with
  | nil => intro acc h1 h2; exact ⟨h1, h2⟩
  | cons w ws ih =>
    intro acc h1 h2
    rw [List.foldl_cons]
    by_cases hw : pyStrip Char.isWhitespace w.word = ""
    · have hstep : simpleStep all_words acc w = acc := by
        simp only [simpleStep]
        rw [if_pos hw]
      rw [hstep]
      exact ih acc h1 h2
    · by_cases hb : simpleShouldBreak all_words w (pyStrip Char.isWhitespace w.word)
          (acc.2 ++ [mkSimpleEntry w (pyStrip Char.isWhitespace w.word)]) = true
      · have hstep : simpleStep all_words acc w =
            (acc.1 ++ [acc.2 ++ [mkSimpleEntry w (pyStrip Char.isWhitespace w.word)]], []) := by
          simp only [simpleStep]
          rw [if_neg hw, if_pos hb]
        rw [hstep]
        apply ih
        · intro s hs
          rcases List.mem_append.mp hs with hs | hs
          · exact h1 s hs
          · rw [List.mem_singleton.mp hs]
            simp only [List.length_append, List.length_singleton]
            omega
        · simp
      · have hstep : simpleStep all_words acc w =
            (acc.1, acc.2 ++ [mkSimpleEntry w (pyStrip Char.isWhitespace w.word)]) := by
          simp only [simpleStep]
          rw [if_neg hw, if_neg hb]
        rw [hstep]
        refine ih (acc.1, acc.2 ++ [mkSimpleEntry w (pyStrip Char.isWhitespace w.word)]) h1 ?_
        have hlt : ¬ 12 ≤ (acc.2 ++ [mkSimpleEntry w (pyStrip Char.isWhitespace w.word)]).length := by
          intro hge
          apply hb
          unfold simpleShouldBreak
          rcases h12 : endsWithBreakPunct (pyStrip Char.isWhitespace w.word) with _ | _
          · rw [if_neg (by simp [h12])]
            by_cases hp : (0 < (acc.2 ++ [mkSimpleEntry w (pyStrip Char.isWhitespace w.word)]).length &&
                pyIndex all_words w + 1 < all_words.length &&
                decide ((all_words.getD (pyIndex all_words w + 1) default).start - w.«end» > 2/5)) = true
            · rw [if_pos hp]
            · rw [if_neg hp, if_pos (by simpa using hge)]
          · rw [if_pos (by simp [h12])]
        simp only [List.length_append, List.length_singleton] at hlt ⊢
        omega

/-- No sentence emitted by the simple parser exceeds 12 entries. -/
lemma simpleParse_length (all_words : List Token) :
    ∀ s ∈ simpleParse all_words, s.length ≤ 12 := by
  intro s hs
  unfold simpleParse at hs
  have hinv := simpleStep_length all_words all_words ([], [])
    (by intro s hs; simp at hs) (by simp)
  by_cases hr : (all_words.foldl (simpleStep all_words) ([], [])).2 = []
  · rw [if_pos hr] at hs
    exact hinv.1 s hs
  · rw [if_neg hr] at hs
    rcases List.mem_append.mp hs with hs | hs
    · exact hinv.1 s hs
    · rw [List.mem_singleton.mp hs]
      omega

/-! ### Concrete example used by witnesses -/

/-- A small concrete token sequence: one high-confidence word, one word with
trailing `!`, one token that cleans to the empty string. -/
def wExample : List Token :=
  [⟨" Hello,", 0, 1/2, some (9/10)⟩, ⟨"world!", 1/2, 1, none⟩, ⟨"...", 1, 2, none⟩]

/-- The document `words_to_lyrics_data` produces for `wExample`. -/
def dExample : LyricsData :=
  { offset := 0
    outro := 9
    song_source := "song.mp3"
    music_source := "song-instrumental.mp3"
    full_sentence := [⟨"Hello world", 0, 1, 1⟩]
    sentences := [⟨none, [⟨"Hello", 0, 1/2, true⟩, ⟨"world", 1/2, 1, false⟩]⟩] }

lemma detect_wExample : detect_sentence_breaks wExample = [1, 2] := by
  simp [detect_sentence_breaks, breakCond, hasSentencePunct, wExample,
    show List.range 3 = [0, 1, 2] from rfl, List.filter_cons]

set_option maxRecDepth 8000 in
lemma target_wExample : target_texts wExample = ["hello"] := by
  simp [target_texts, identify_target_words, is_target_word, wExample, List.filter_cons,
    (show clean_word " Hello," = "Hello" by decide),
    (show clean_word "world!" = "world" by decide),
    (show clean_word "..." = "" by decide),
    (show pyIsAlpha "Hello" = true by decide),
    (show pyIsAlpha "world" = true by decide),
    (show "Hello".length = 5 from rfl),
    (show "world".length = 5 from rfl), filler_words]
  norm_num
  decide

lemma stem_wExample : path_stem "a/song.mp3" = "song" := by
  simp [path_stem]
  decide

set_option maxRecDepth 8000 in
lemma wtld_wExample :
    words_to_lyrics_data wExample "a/song.mp3" 10 = some dExample := by
  unfold words_to_lyrics_data
  rw [if_neg (by simp [wExample])]
  simp only [detect_wExample, target_wExample, stem_wExample]
  simp [buildGroups, keptSlice, mkWordEntry, wExample, dExample, List.filter_cons,
    (show clean_word " Hello," = "Hello" by decide),
    (show clean_word "world!" = "world" by decide),
    (show clean_word "..." = "" by decide),
    (show pyLower "Hello" = "hello" by decide),
    (show pyLower "world" = "world" by decide)]
  norm_num [pyRound2, rndHalfEven]
  decide

/-! ### Claim theorems -/

/-- C1: For every token sequence, concatenating the word lists of all emitted
SentenceGroups in order reproduces exactly the subsequence of input tokens
whose cleaned text is non-empty, in original order, with no token lost,
duplicated, or reordered — both for the full-variant pipeline
(`words_to_lyrics_data`, cleaning = `clean_word`) and for the simple-variant
pipeline (`simpleParse`, cleaning = whitespace strip). -/
theorem partition_property :
    (∀ (words : List Token) (fn : String) (td : ℚ) (d : LyricsData),
        words_to_lyrics_data words fn td = some d →
          (d.sentences.map SentenceGroup.words).flatten
            = (words.filter (fun w => clean_word w.word != "")).map
                (mkWordEntry (target_texts words)))
  ∧ (∀ all_words : List Token,
        (simpleParse all_words).flatten
          = (all_words.filter (fun w => pyStrip Char.isWhitespace w.word != "")).map
              (fun w => mkSimpleEntry w (pyStrip Char.isWhitespace w.word))) :=
  ⟨wtld_flatten, simpleParse_flatten⟩

/-- Witness for C1 at a concrete input. -/
theorem partition_property_witness :
    (dExample.sentences.map SentenceGroup.words).flatten
      = (wExample.filter (fun w => clean_word w.word != "")).map
          (mkWordEntry (target_texts wExample)) :=
  partition_property.1 wExample "a/song.mp3" 10 dExample wtld_wExample

/-- C2: a built WordEntry has `target_word = true` iff its lowercased cleaned
text equals the lowercased cleaned text of some token anywhere in the full
sequence satisfying all selection criteria: confidence ≥ 0.85 (absent treated
as 0), cleaned length ≥ 4, purely alphabetic, not in the fixed filler-word
set; the flag propagates to every occurrence of the same word text. -/
theorem target_flag_iff (words : List Token) (fn : String) (td : ℚ) (d : LyricsData)
    (h : words_to_lyrics_data words fn td = some d)
    (g : SentenceGroup) (hg : g ∈ d.sentences) (e : WordEntry) (he : e ∈ g.words) :
    e.target_word = true ↔
      ∃ t ∈ words, pyLower (clean_word t.word) = pyLower e.text ∧
        85/100 ≤ t.confidence.getD 0 ∧ 4 ≤ (clean_word t.word).length ∧
        pyIsAlpha (clean_word t.word) = true ∧
        pyLower (clean_word t.word) ∉ filler_words := by
  obtain ⟨t0, ht0, hc0, rfl⟩ := wtld_mem_entry words fn td d h g hg e he
  show (target_texts words).contains (pyLower (clean_word t0.word)) = true ↔ _
  rw [target_texts_contains]
  constructor
  · rintro ⟨t, ht, hcrit, hkey⟩
    rw [is_target_word_iff] at hcrit
    exact ⟨t, ht, hkey, hcrit.1, hcrit.2.1, hcrit.2.2.2, hcrit.2.2.1⟩
  · rintro ⟨t, ht, hkey, hconf, hlen, halpha, hfill⟩
    exact ⟨t, ht, (is_target_word_iff _ _ _).mpr ⟨hconf, hlen, hfill, halpha⟩, hkey⟩

/-- Witness for C2 at a concrete input: the first emitted entry of the
example document. -/
theorem target_flag_iff_witness :
    (⟨"Hello", 0, 1/2, true⟩ : WordEntry).target_word = true ↔
      ∃ t ∈ wExample,
        pyLower (clean_word t.word) = pyLower (⟨"Hello", 0, 1/2, true⟩ : WordEntry).text ∧
        85/100 ≤ t.confidence.getD 0 ∧ 4 ≤ (clean_word t.word).length ∧
        pyIsAlpha (clean_word t.word) = true ∧
        pyLower (clean_word t.word) ∉ filler_words :=
  target_flag_iff wExample "a/song.mp3" 10 dExample wtld_wExample
    ⟨none, [⟨"Hello", 0, 1/2, true⟩, ⟨"world", 1/2, 1, false⟩]⟩ (by simp [dExample])
    ⟨"Hello", 0, 1/2, true⟩ (by simp)

/-- C10: every sentence group emitted by the full-variant document assembly
carries, besides its `words` list, an `image` field equal to `None`. -/
theorem image_field_none (words : List Token) (fn : String) (td : ℚ) (d : LyricsData)
    (h : words_to_lyrics_data words fn td = some d)
    (g : SentenceGroup) (hg : g ∈ d.sentences) : g.image = none := by
  have hw : words ≠ [] := by
    intro he
    subst he
    simp [words_to_lyrics_data] at h
  rw [wtld_some_eq words fn td d h hw] at hg
  exact buildGroups_image_none words (target_texts words) _ 0 g hg

/-- Witness for C10 at a concrete input. -/
theorem image_field_none_witness :
    (⟨none, [⟨"Hello", 0, 1/2, true⟩, ⟨"world", 1/2, 1, false⟩]⟩ : SentenceGroup).image
      = none :=
  image_field_none wExample "a/song.mp3" 10 dExample wtld_wExample
    ⟨none, [⟨"Hello", 0, 1/2, true⟩, ⟨"world", 1/2, 1, false⟩]⟩ (by simp [dExample])

lemma mem_of_head_opt (l : List α) (a : α) (h : l.head? = some a) : a ∈ l := by
  cases l with
  | nil => simp at h
  | cons b l =>
    simp only [List.head?_cons, Option.some.injEq] at h
    subst h
    exact List.mem_cons_self _ _

lemma mem_of_getLast_opt : ∀ (l : List α) (a : α), l.getLast? = some a → a ∈ l := by
  intro l
  induction l with
  | nil => intro a h; simp at h
  | cons b l ih =>
    intro a h
    cases l with
    | nil =>
      simp only [List.getLast?_singleton, Option.some.injEq] at h
      subst h
      exact List.mem_cons_self _ _
    | cons c l2 =>
      rw [List.getLast?_cons_cons] at h
      exact List.mem_cons_of_mem _ (ih a h)

/-- Non-emptiness of emitted groups, at the document level. -/
lemma wtld_group_words_ne_nil (words : List Token) (fn : String) (td : ℚ)
    (d : LyricsData) (h : words_to_lyrics_data words fn td = some d)
    (g : SentenceGroup) (hg : g ∈ d.sentences) : g.words ≠ [] := by
  have hw : words ≠ [] := by
    intro he
    subst he
    simp [words_to_lyrics_data] at h
  rw [wtld_some_eq words fn td d h hw] at hg
  exact buildGroups_words_ne_nil words (target_texts words) _ 0 g hg

/-- C3 counterexample: with one token that cleans to the empty string (so no
groups are emitted) and `total_duration = 20`, the document has an empty
sentence list but `outro = 3.0`, not `0.0`; and with one surviving token
ending at `1.0` but `total_duration = 0`, `outro = 3.0` instead of
`max(0, 0 − 1) = 0`. -/
theorem offset_outro_claim_cex :
    ((words_to_lyrics_data [⟨"...", 0, 1, none⟩] "f.mp3" 20).map
        (fun d => (d.sentences, d.offset, d.outro)) = some ([], 0, 3) ∧ (3:ℚ) ≠ 0)
  ∧ ((words_to_lyrics_data [⟨"hello", 0, 1, none⟩] "f.mp3" 0).map
        (fun d => d.outro) = some 3 ∧ (3:ℚ) ≠ max 0 ((0:ℚ) - 1)) := by
  refine ⟨⟨?_, by norm_num⟩, ⟨?_, by norm_num⟩⟩
  · simp [words_to_lyrics_data, detect_sentence_breaks, breakCond, hasSentencePunct,
      show List.range 1 = [0] from rfl, List.filter_cons, buildGroups, keptSlice,
      target_texts, identify_target_words, is_target_word,
      (show clean_word "..." = "" by decide)]
    norm_num [pyRound2, rndHalfEven]
  · simp [words_to_lyrics_data, detect_sentence_breaks, breakCond, hasSentencePunct,
      show List.range 1 = [0] from rfl, List.filter_cons, buildGroups, keptSlice,
      mkWordEntry, target_texts, identify_target_words, is_target_word,
      (show clean_word "hello" = "hello" by decide),
      (show pyLower "hello" = "hello" by decide),
      (show pyIsAlpha "hello" = true by decide),
      (show "hello".length = 5 from rfl), filler_words]
    norm_num [pyRound2, rndHalfEven]

/-- With no emitted sentences, the document's offset is `0` and its outro is
the fallback `3`. -/
lemma wtld_empty_meta (words : List Token) (fn : String) (td : ℚ)
    (d : LyricsData) (h : words_to_lyrics_data words fn td = some d)
    (hs : d.sentences = []) : d.offset = 0 ∧ d.outro = 3 := by
  have hw : words ≠ [] := by
    intro he
    subst he
    simp [words_to_lyrics_data] at h
  have hd := wtld_some_eq words fn td d h hw
  set B := buildGroups words (target_texts words) 0 (detect_sentence_breaks words)
    with hB
  have hsent : d.sentences = B.1 := by rw [hd]
  have hoff : d.offset = pyRound2 (match B.2.head? with
      | some fs => fs.start_time
      | none => 0) := by rw [hd]
  have hout : d.outro = pyRound2 (match B.2.getLast? with
      | some fs => if 0 < td then max 0 (td - fs.end_time) else 3
      | none => 3) := by rw [hd]
  have halign := buildGroups_align words (target_texts words)
    (detect_sentence_breaks words) 0
  rw [← hB] at halign
  rw [hsent] at hs
  rw [hs, List.map_nil, List.map_eq_nil_iff] at halign
  rw [hoff, hout, halign]
  simp only [List.head?_nil, List.getLast?_nil]
  exact ⟨pyRound2_zero, pyRound2_three⟩

/-- With no emitted sentences, the full-sentence list is empty as well. -/
lemma wtld_empty_full (words : List Token) (fn : String) (td : ℚ)
    (d : LyricsData) (h : words_to_lyrics_data words fn td = some d)
    (hs : d.sentences = []) : d.full_sentence = [] := by
  have hw : words ≠ [] := by
    intro he
    subst he
    simp [words_to_lyrics_data] at h
  have hd := wtld_some_eq words fn td d h hw
  have hfs : d.full_sentence = (buildGroups words (target_texts words) 0
      (detect_sentence_breaks words)).2 := by rw [hd]
  have hs1 : d.sentences = (buildGroups words (target_texts words) 0
      (detect_sentence_breaks words)).1 := by rw [hd]
  have halign := buildGroups_align words (target_texts words)
    (detect_sentence_breaks words) 0
  rw [← hs1, hs, List.map_nil, List.map_eq_nil_iff] at halign
  rw [hfs, halign]

/-- The document offset equals the (already rounded) start time of the first
group's first word. -/
lemma wtld_offset_firstEntry (words : List Token) (fn : String) (td : ℚ)
    (d : LyricsData) (h : words_to_lyrics_data words fn td = some d)
    (g0 : SentenceGroup) (e0 : WordEntry) (hg0 : d.sentences.head? = some g0)
    (he0 : g0.words.head? = some e0) : d.offset = e0.start_time := by
  have hw : words ≠ [] := by
    intro he
    subst he
    simp [words_to_lyrics_data] at h
  have hd := wtld_some_eq words fn td d h hw
  set B := buildGroups words (target_texts words) 0 (detect_sentence_breaks words)
    with hB
  have hsent : d.sentences = B.1 := by rw [hd]
  have hoff : d.offset = pyRound2 (match B.2.head? with
      | some fs => fs.start_time
      | none => 0) := by rw [hd]
  have halign := buildGroups_align words (target_texts words)
    (detect_sentence_breaks words) 0
  rw [← hB] at halign
  have hg0mem : g0 ∈ d.sentences := mem_of_head_opt _ _ hg0
  have he0mem : e0 ∈ g0.words := mem_of_head_opt _ _ he0
  obtain ⟨t0, _, _, het⟩ := wtld_mem_entry words fn td d h g0 hg0mem e0 he0mem
  rw [hsent] at hg0
  have hh : B.2.head?.map (fun fs => (fs.start_time, fs.end_time))
      = some ((g0.words.headD default).start_time,
          (g0.words.getLastD default).end_time) := by
    rw [← List.head?_map, halign, List.head?_map, hg0]
    rfl
  rcases hfs : B.2.head? with _ | fs0
  · rw [hfs] at hh; simp at hh
  · rw [hfs] at hh
    simp only [Option.map_some', Option.some.injEq, Prod.mk.injEq] at hh
    rw [hoff, hfs]
    show pyRound2 fs0.start_time = e0.start_time
    rw [hh.1]
    have hh0 : g0.words.headD default = e0 := by
      rw [List.headD_eq_head?, he0]
      rfl
    rw [hh0, het]
    exact pyRound2_idem t0.start

/-- The document outro is computed from the (already rounded) end time of the
last group's last word when `total_duration > 0`, and is the fallback `3`
otherwise. -/
lemma wtld_outro_lastEntry (words : List Token) (fn : String) (td : ℚ)
    (d : LyricsData) (h : words_to_lyrics_data words fn td = some d)
    (g1 : SentenceGroup) (e1 : WordEntry) (hg1 : d.sentences.getLast? = some g1)
    (he1 : g1.words.getLast? = some e1) :
    d.outro = if 0 < td then pyRound2 (max 0 (td - e1.end_time)) else 3 := by
  have hw : words ≠ [] := by
    intro he
    subst he
    simp [words_to_lyrics_data] at h
  have hd := wtld_some_eq words fn td d h hw
  set B := buildGroups words (target_texts words) 0 (detect_sentence_breaks words)
    with hB
  have hsent : d.sentences = B.1 := by rw [hd]
  have hout : d.outro = pyRound2 (match B.2.getLast? with
      | some fs => if 0 < td then max 0 (td - fs.end_time) else 3
      | none => 3) := by rw [hd]
  have halign := buildGroups_align words (target_texts words)
    (detect_sentence_breaks words) 0
  rw [← hB] at halign
  rw [hsent] at hg1
  have hh : B.2.getLast?.map (fun fs => (fs.start_time, fs.end_time))
      = some ((g1.words.headD default).start_time,
          (g1.words.getLastD default).end_time) := by
    rw [← List.getLast?_map, halign, List.getLast?_map, hg1]
    rfl
  rcases hfs : B.2.getLast? with _ | fs1
  · rw [hfs] at hh; simp at hh
  · rw [hfs] at hh
    simp only [Option.map_some', Option.some.injEq, Prod.mk.injEq] at hh
    rw [hout, hfs]
    show pyRound2 (if 0 < td then max 0 (td - fs1.end_time) else 3)
      = if 0 < td then pyRound2 (max 0 (td - e1.end_time)) else 3
    rw [apply_ite pyRound2, pyRound2_three, hh.2]
    have hh1 : g1.words.getLastD default = e1 := by
      rw [List.getLastD_eq_getLast?, he1]
      rfl
    rw [hh1]

/-- C3 amended: `offset` equals the (already rounded) `start_time` of the
first group's first word, and `0` when there are no groups; `outro` equals
`round2(max(0, total_duration − end_time of the last group's last word))`
only when at least one group exists *and* `total_duration > 0` — in every
other case (no groups, or `total_duration ≤ 0`) `outro` is the fixed
fallback `3.0`. -/
theorem offset_outro_amended (words : List Token) (fn : String) (td : ℚ)
    (d : LyricsData) (h : words_to_lyrics_data words fn td = some d) :
    (d.sentences = [] → d.offset = 0 ∧ d.outro = 3)
  ∧ (∀ g0 e0, d.sentences.head? = some g0 → g0.words.head? = some e0 →
      d.offset = e0.start_time)
  ∧ (∀ g1 e1, d.sentences.getLast? = some g1 → g1.words.getLast? = some e1 →
      d.outro = if 0 < td then pyRound2 (max 0 (td - e1.end_time)) else 3) :=
  ⟨fun hs => wtld_empty_meta words fn td d h hs,
   fun g0 e0 hg0 he0 => wtld_offset_firstEntry words fn td d h g0 e0 hg0 he0,
   fun g1 e1 hg1 he1 => wtld_outro_lastEntry words fn td d h g1 e1 hg1 he1⟩

/-- Witness for C3 amended at a concrete input. -/
theorem offset_outro_amended_witness :
    dExample.offset = (⟨"Hello", 0, 1/2, true⟩ : WordEntry).start_time :=
  (offset_outro_amended wExample "a/song.mp3" 10 dExample wtld_wExample).2.1
    ⟨none, [⟨"Hello", 0, 1/2, true⟩, ⟨"world", 1/2, 1, false⟩]⟩
    ⟨"Hello", 0, 1/2, true⟩ (by simp [dExample]) (by simp)

/-- C4 counterexample: an empty token list is refused — `words_to_lyrics_data`
returns `None` (the CLI then reports an error and exits non-zero) — and a
non-empty input whose tokens all clean to the empty string yields a document
with an empty sentence list but `outro = 3.0`, not `0.0`. -/
theorem empty_input_claim_cex :
    words_to_lyrics_data [] "f.mp3" 5 = none
  ∧ (words_to_lyrics_data [⟨"...", 0, 1, none⟩] "f.mp3" 5).map
      (fun d => (d.sentences, d.offset, d.outro)) = some ([], 0, 3)
  ∧ (3:ℚ) ≠ 0 := by
  refine ⟨rfl, ?_, by norm_num⟩
  simp [words_to_lyrics_data, detect_sentence_breaks, breakCond, hasSentencePunct,
    show List.range 1 = [0] from rfl, List.filter_cons, buildGroups, keptSlice,
    target_texts, identify_target_words, is_target_word,
    (show clean_word "..." = "" by decide)]
  norm_num [pyRound2, rndHalfEven]

/-- C4 amended: an input with zero raw tokens yields no document at all
(`words_to_lyrics_data` returns `None`; the CLI treats this as an error);
an input whose tokens are all cleaned to the empty string yields a degenerate
document with empty sentence and full-sentence lists, `offset = 0.0`, and
`outro = 3.0` (the fallback), not `0.0`. -/
theorem empty_input_amended :
    (∀ (fn : String) (td : ℚ), words_to_lyrics_data [] fn td = none)
  ∧ (∀ (words : List Token) (fn : String) (td : ℚ), words ≠ [] →
      (∀ t ∈ words, clean_word t.word = "") →
      ∃ d, words_to_lyrics_data words fn td = some d ∧
        d.sentences = [] ∧ d.full_sentence = [] ∧ d.offset = 0 ∧ d.outro = 3) := by
  constructor
  · intro fn td
    rfl
  · intro words fn td hw hclean
    obtain ⟨d, hd⟩ : ∃ d, words_to_lyrics_data words fn td = some d := by
      unfold words_to_lyrics_data
      rw [if_neg hw]
      exact ⟨_, rfl⟩
    have hflat := wtld_flatten words fn td d hd
    have hfil : words.filter (fun w => clean_word w.word != "") = [] := by
      rw [List.filter_eq_nil_iff]
      intro t ht
      simp [hclean t ht]
    rw [hfil, List.map_nil] at hflat
    have hsent : d.sentences = [] := by
      rcases hs : d.sentences with _ | ⟨g, gs⟩
      · rfl
      · exfalso
        have hgmem : g ∈ d.sentences := by
          rw [hs]
          exact List.mem_cons_self _ _
        apply wtld_group_words_ne_nil words fn td d hd g hgmem
        have := List.flatten_eq_nil_iff.mp hflat g.words
        apply this
        rw [hs]
        simp
    have hmeta := wtld_empty_meta words fn td d hd hsent
    have hfull := wtld_empty_full words fn td d hd hsent
    exact ⟨d, hd, hsent, hfull, hmeta.1, hmeta.2⟩

/-- Witness for C4 amended at concrete inputs. -/
theorem empty_input_amended_witness :
    words_to_lyrics_data [] "f.mp3" 5 = none
  ∧ ∃ d, words_to_lyrics_data [⟨"...", 0, 1, none⟩] "f.mp3" 5 = some d ∧
      d.sentences = [] ∧ d.full_sentence = [] ∧ d.offset = 0 ∧ d.outro = 3 :=
  ⟨empty_input_amended.1 "f.mp3" 5,
   empty_input_amended.2 [⟨"...", 0, 1, none⟩] "f.mp3" 5 (by simp)
     (by
       intro t ht
       rw [List.mem_singleton.mp ht]
       decide)⟩

/-- 13 identical tokens with no punctuation and no pauses
(all timestamps equal, so every gap is 0). -/
def words13 : List Token := [⟨"la", 0, 0, none⟩, ⟨"la", 0, 0, none⟩, ⟨"la", 0, 0, none⟩, ⟨"la", 0, 0, none⟩, ⟨"la", 0, 0, none⟩, ⟨"la", 0, 0, none⟩, ⟨"la", 0, 0, none⟩, ⟨"la", 0, 0, none⟩, ⟨"la", 0, 0, none⟩, ⟨"la", 0, 0, none⟩, ⟨"la", 0, 0, none⟩, ⟨"la", 0, 0, none⟩, ⟨"la", 0, 0, none⟩]

/-- 25 identical tokens with no punctuation and no pauses. -/
def words25 : List Token := [⟨"la", 0, 0, none⟩, ⟨"la", 0, 0, none⟩, ⟨"la", 0, 0, none⟩, ⟨"la", 0, 0, none⟩, ⟨"la", 0, 0, none⟩, ⟨"la", 0, 0, none⟩, ⟨"la", 0, 0, none⟩, ⟨"la", 0, 0, none⟩, ⟨"la", 0, 0, none⟩, ⟨"la", 0, 0, none⟩, ⟨"la", 0, 0, none⟩, ⟨"la", 0, 0, none⟩, ⟨"la", 0, 0, none⟩, ⟨"la", 0, 0, none⟩, ⟨"la", 0, 0, none⟩, ⟨"la", 0, 0, none⟩, ⟨"la", 0, 0, none⟩, ⟨"la", 0, 0, none⟩, ⟨"la", 0, 0, none⟩, ⟨"la", 0, 0, none⟩, ⟨"la", 0, 0, none⟩, ⟨"la", 0, 0, none⟩, ⟨"la", 0, 0, none⟩, ⟨"la", 0, 0, none⟩, ⟨"la", 0, 0, none⟩]

set_option maxRecDepth 40000 in
set_option maxHeartbeats 1000000 in
/-- C5 counterexample: the parse_lyrics segmenter has no length rule at all —
13 tokens with no punctuation and no pauses come back as a single group of
13 > 12 words. -/
theorem length_bound_claim_cex :
    (words_to_lyrics_data words13 "f.mp3" 0).map
        (fun d => d.sentences.map (fun g => g.words.length)) = some [13]
  ∧ ¬(13 ≤ 12) := by
  refine ⟨?_, by omega⟩
  simp [words13, words_to_lyrics_data, detect_sentence_breaks, breakCond,
    hasSentencePunct,
    show List.range 13 = [0, 1, 2, 3, 4, 5, 6, 7, 8, 9, 10, 11, 12] from rfl,
    List.filter_cons, buildGroups, keptSlice, mkWordEntry, target_texts,
    identify_target_words, is_target_word, filler_words,
    (show clean_word "la" = "la" by decide),
    (show pyLower "la" = "la" by decide),
    (show "la".length = 2 from rfl),
    (show ((0:ℚ) - 0 > 1/2) = False by norm_num),
    (show ((85:ℚ)/100 ≤ 0) = False by norm_num),
    pyRound2_zero]

set_option maxRecDepth 100000 in
set_option maxHeartbeats 4000000 in
/-- C5 amended: the 12-word bound holds for the simple_whisper_parser
segmenter — no emitted sentence ever exceeds 12 words, and a 25-token input
with no breaking punctuation and no pauses above threshold yields groups of
sizes [12, 12, 1] in order — while the parse_lyrics segmenter applies no
length bound (see the counterexample: 13 tokens come back as one group). -/
theorem length_bound_amended :
    (∀ all_words : List Token, ∀ s ∈ simpleParse all_words, s.length ≤ 12)
  ∧ (simpleParse words25).map List.length = [12, 12, 1] := by
  refine ⟨fun aw s hs => simpleParse_length aw s hs, ?_⟩
  simp [words25, simpleParse, simpleStep, simpleShouldBreak, mkSimpleEntry, pyIndex,
    endsWithBreakPunct, hasDashOrNewline, List.foldl_cons, List.foldl_nil,
    (show pyStrip Char.isWhitespace "la" = "la" by decide),
    (show ((0:ℚ) - 0 > 2/5) = False by norm_num),
    (show ((2:ℚ)/5 < 0) = False by norm_num)]

set_option maxRecDepth 8000 in
/-- Witness for C5 amended: the single sentence produced from a one-token
input respects the bound. -/
theorem length_bound_amended_witness :
    [mkSimpleEntry ⟨"la", 0, 0, none⟩ "la"].length ≤ 12 :=
  length_bound_amended.1 [⟨"la", 0, 0, none⟩] [mkSimpleEntry ⟨"la", 0, 0, none⟩ "la"]
    (by
      simp [simpleParse, simpleStep, simpleShouldBreak, mkSimpleEntry, pyIndex,
        endsWithBreakPunct, hasDashOrNewline,
        (show pyStrip Char.isWhitespace "la" = "la" by decide)])

/-- C6 counterexample: in parse_lyrics, the punctuation break fires for the
token `"a.b"` — whose text ends in `'b'`, not a sentence-ending mark — purely
because of the embedded `'.'` (the pause rule cannot have fired: the gap to
the next token is `1 − 1 = 0 ≤ 0.5`). -/
theorem punct_break_claim_cex :
    breakCond [⟨"a.b", 0, 1, none⟩, ⟨"c", 1, 2, none⟩] 0 = true
  ∧ "a.b".data.getLast? = some 'b'
  ∧ ¬((1:ℚ) - 1 > 1/2) := by
  refine ⟨rfl, rfl, by norm_num⟩

/-- C6 amended: the parse_lyrics punctuation break fires after a token exactly
when the raw text *contains* one of `. ! ?` anywhere (not only at the end);
the simple-variant punctuation rule fires exactly on a trailing one of
`. ! ? , : ;`, and its separate dash/newline rule fires exactly on an
embedded newline, em dash or en dash. -/
theorem punct_break_amended :
    (∀ s : String, hasSentencePunct s = true ↔
        ∃ c ∈ s.data, c = '.' ∨ c = '!' ∨ c = '?')
  ∧ (∀ (words : List Token) (i : ℕ),
        breakCond words i = true ↔
          (hasSentencePunct (words.getD i default).word = true ∨
            (i < words.length - 1 ∧
              (words.getD (i + 1) default).start - (words.getD i default).«end» > 1/2)))
  ∧ (∀ s : String, endsWithBreakPunct s = true ↔
        ∃ c, s.data.getLast? = some c ∧
          (c = '.' ∨ c = '!' ∨ c = '?' ∨ c = ',' ∨ c = ':' ∨ c = ';'))
  ∧ (∀ s : String, hasDashOrNewline s = true ↔
        ∃ c ∈ s.data, c = '\n' ∨ c = '—' ∨ c = '–') := by
  refine ⟨?_, ?_, ?_, ?_⟩
  · intro s
    unfold hasSentencePunct
    rw [List.any_eq_true]
    constructor
    · rintro ⟨c, hc, hcs⟩
      simp at hcs
      exact ⟨c, hc, by tauto⟩
    · rintro ⟨c, hc, hcs⟩
      refine ⟨c, hc, ?_⟩
      simp
      tauto
  · intro words i
    unfold breakCond
    by_cases hp : hasSentencePunct (words.getD i default).word = true
    · rw [if_pos hp]
      constructor
      · intro _
        exact Or.inl hp
      · intro _
        rfl
    · rw [if_neg hp]
      by_cases hi : i < words.length - 1
      · rw [if_pos hi]
        rw [decide_eq_true_eq]
        constructor
        · intro hgap
          exact Or.inr ⟨hi, hgap⟩
        · rintro (hpp | ⟨_, hgap⟩)
          · exact absurd hpp hp
          · exact hgap
      · rw [if_neg hi]
        constructor
        · intro hf
          simp at hf
        · rintro (hpp | ⟨hii, _⟩)
          · exact absurd hpp hp
          · exact absurd hii hi
  · intro s
    unfold endsWithBreakPunct
    rcases hl : s.data.getLast? with _ | c
    · simp
    · constructor
      · intro hc
        simp at hc
        exact ⟨c, rfl, by tauto⟩
      · rintro ⟨c₁, hc₁, hcs⟩
        obtain rfl : c = c₁ := Option.some.inj hc₁
        simp
        tauto
  · intro s
    unfold hasDashOrNewline
    rw [List.any_eq_true]
    constructor
    · rintro ⟨c, hc, hcs⟩
      simp at hcs
      exact ⟨c, hc, by tauto⟩
    · rintro ⟨c, hc, hcs⟩
      refine ⟨c, hc, ?_⟩
      simp
      tauto

/-- Witness for C6 amended at concrete strings. -/
theorem punct_break_amended_witness :
    (hasSentencePunct "a.b" = true ↔ ∃ c ∈ "a.b".data, c = '.' ∨ c = '!' ∨ c = '?')
  ∧ (endsWithBreakPunct "la," = true ↔
      ∃ c, "la,".data.getLast? = some c ∧
        (c = '.' ∨ c = '!' ∨ c = '?' ∨ c = ',' ∨ c = ':' ∨ c = ';')) :=
  ⟨punct_break_amended.1 "a.b", punct_break_amended.2.2.1 "la,"⟩

/-- The C7 failing input: the third token is an exact duplicate of the first,
and the fourth follows the third with a gap of only `0.05 s`. -/
def cex7 : List Token :=
  [⟨"la", 0, 3/10, none⟩, ⟨"da", 1, 13/10, none⟩,
   ⟨"la", 0, 3/10, none⟩, ⟨"na", 35/100, 6/10, none⟩]

set_option maxRecDepth 100000 in
set_option maxHeartbeats 2000000 in
/-- C7: the simple-variant pause rule looks the current token up with
`all_words.index(word_data)`, the position of the *first equal* token. On
`cex7` the third token (a duplicate of the first) is looked up at index 0, so
the pause decision uses the `0.7 s` gap after the first token and closes the
group — even though the gap to the token actually following it is only
`0.05 s ≤ 0.4 s`, under which the claimed rule would keep the group open.
The code emits `[["la"], ["da", "la"], ["na"]]` instead of the claimed
`[["la"], ["da", "la", "na"]]`. -/
theorem pause_break_index_bug :
    (simpleParse cex7).map (fun s => s.map WordEntry.text)
        = [["la"], ["da", "la"], ["na"]]
  ∧ pyIndex cex7 (cex7.getD 2 default) = 0
  ∧ ¬((35:ℚ)/100 - 3/10 > 2/5) := by
  refine ⟨?_, by simp [cex7, pyIndex], by norm_num⟩
  simp [cex7, simpleParse, simpleStep, simpleShouldBreak, mkSimpleEntry, pyIndex,
    endsWithBreakPunct, hasDashOrNewline, List.foldl_cons, List.foldl_nil,
    (show pyStrip Char.isWhitespace "la" = "la" by decide),
    (show pyStrip Char.isWhitespace "da" = "da" by decide),
    (show pyStrip Char.isWhitespace "na" = "na" by decide),
    (show ((1:ℚ) - 3/10 > 2/5) = True by norm_num),
    (show ((0:ℚ) - 13/10 > 2/5) = False by norm_num),
    (show ((0:ℚ) - 6/10 > 2/5) = False by norm_num),
    (show ((35:ℚ)/100 - 3/10 > 2/5) = False by norm_num),
    (show ((2:ℚ)/5 < -(13/10)) = False by norm_num),
    (show ((2:ℚ)/5 < -(6/10)) = False by norm_num)]

/-- C8 counterexample: a token whose `end` (1.0) is strictly less than its
`start` (2.0) is not rejected — the pipeline succeeds and emits its WordEntry
with `end_time = 1 < 2 = start_time`. -/
theorem malformed_token_claim_cex :
    (words_to_lyrics_data [⟨"hello", 2, 1, none⟩] "f.mp3" 0).map
        (fun d => d.sentences.map (fun g => g.words))
      = some [[⟨"hello", 2, 1, false⟩]]
  ∧ ¬((2:ℚ) ≤ 1) := by
  refine ⟨?_, by norm_num⟩
  simp [words_to_lyrics_data, detect_sentence_breaks, breakCond, hasSentencePunct,
    show List.range 1 = [0] from rfl, List.filter_cons, buildGroups, keptSlice,
    mkWordEntry, target_texts, identify_target_words, is_target_word,
    (show clean_word "hello" = "hello" by decide),
    (show pyLower "hello" = "hello" by decide),
    (show pyIsAlpha "hello" = true by decide),
    (show "hello".length = 5 from rfl), filler_words]
  norm_num [pyRound2, rndHalfEven]

/-- C8 amended: segmentation and document assembly perform no timing
validation at all — every emitted WordEntry carries exactly the (rounded)
`start`/`end` of its source token, whatever their order, so a token with
`end < start` is passed through instead of rejected (missing `start`/`end`
dictionary fields are outside this model; in the source they raise an
uncaught `KeyError`). -/
theorem timing_passthrough_amended (words : List Token) (fn : String) (td : ℚ)
    (d : LyricsData) (h : words_to_lyrics_data words fn td = some d)
    (g : SentenceGroup) (hg : g ∈ d.sentences) (e : WordEntry) (he : e ∈ g.words) :
    ∃ t ∈ words, e.text = clean_word t.word ∧
      e.start_time = pyRound2 t.start ∧ e.end_time = pyRound2 t.«end» := by
  obtain ⟨t, ht, _, rfl⟩ := wtld_mem_entry words fn td d h g hg e he
  exact ⟨t, ht, rfl, rfl, rfl⟩

/-- Witness for C8 amended at a concrete input. -/
theorem timing_passthrough_amended_witness :
    ∃ t ∈ wExample,
      (⟨"world", 1/2, 1, false⟩ : WordEntry).text = clean_word t.word ∧
      (⟨"world", 1/2, 1, false⟩ : WordEntry).start_time = pyRound2 t.start ∧
      (⟨"world", 1/2, 1, false⟩ : WordEntry).end_time = pyRound2 t.«end» :=
  timing_passthrough_amended wExample "a/song.mp3" 10 dExample wtld_wExample
    ⟨none, [⟨"Hello", 0, 1/2, true⟩, ⟨"world", 1/2, 1, false⟩]⟩ (by simp [dExample])
    ⟨"world", 1/2, 1, false⟩ (by simp)

lemma flatten_getLast_opt : ∀ (l : List (List α)), (∀ x ∈ l, x ≠ []) →
    l.flatten.getLast? = (l.getLastD []).getLast? := by
  intro l
  induction l with
  | nil => intro _; rfl
  | cons x xs ih =>
    intro hx
    rw [List.flatten_cons, List.getLastD_cons]
    cases hxs : xs with
    | nil =>
      subst hxs
      simp
    | cons y ys =>
      subst hxs
      have hyne : (y :: ys).flatten ≠ [] := by
        intro hfl
        rw [List.flatten_eq_nil_iff] at hfl
        exact hx y (by simp) (hfl y (by simp))
      rw [List.getLast?_append_of_ne_nil _ hyne]
      rw [ih (fun z hz => hx z (List.mem_cons_of_mem _ hz))]
      exact congrArg List.getLast? (getLastD_default_irrel y ys [] x).symm

lemma getLastD_cons_mem (a : α) (l : List α) (d : α) : (a :: l).getLastD d ∈ a :: l := by
  rw [List.getLastD_eq_getLast?]
  rcases h : (a :: l).getLast? with _ | x
  · rw [List.getLast?_eq_none_iff] at h
    simp at h
  · simpa using mem_of_getLast_opt _ _ h

lemma keptSlice_subset (words : List Token) (s b : ℕ) :
    ∀ t ∈ keptSlice words s b, t ∈ words := by
  intro t ht
  unfold keptSlice at ht
  have h1 := List.mem_of_mem_filter ht
  have h2 := List.mem_of_mem_drop h1
  exact List.mem_of_mem_take h2

/-- Every full-sentence summary is built from raw tokens of the input: its
start/end times are the rounded raw times of its first and last surviving
token, and its duration is the rounding of the *unrounded* difference. -/
lemma buildGroups_full_mem (words : List Token) (tset : List String) :
    ∀ (bs : List ℕ) (s : ℕ) (fs : FullSentence),
      fs ∈ (buildGroups words tset s bs).2 →
        ∃ t0 ∈ words, ∃ t1 ∈ words,
          fs.start_time = pyRound2 t0.start ∧ fs.end_time = pyRound2 t1.«end» ∧
          fs.duration = pyRound2 (t1.«end» - t0.start) := by
  intro bs
  induction bs with
  | nil => intro s fs hfs; simp [buildGroups] at hfs
  | cons b rest ih =>
    intro s fs hfs
    simp only [buildGroups] at hfs
    cases hk : keptSlice words s b with
    | nil =>
      rw [hk] at hfs
      exact ih (b + 1) fs hfs
    | cons w0 ws =>
      rw [hk] at hfs
      simp only [List.mem_cons] at hfs
      rcases hfs with hfs | hfs
      · have hw0 : w0 ∈ words := by
          apply keptSlice_subset words s b
          rw [hk]
          exact List.mem_cons_self _ _
        have hwlast : (w0 :: ws).getLastD w0 ∈ words := by
          apply keptSlice_subset words s b
          rw [hk]
          exact getLastD_cons_mem w0 ws w0
        subst hfs
        exact ⟨w0, hw0, (w0 :: ws).getLastD w0, hwlast, rfl, rfl, rfl⟩
      · exact ih (b + 1) fs hfs

/-- C9 counterexample: with one token ending at `2.494` and
`total_duration = 4.997`, the emitted outro is `2.51` — computed from the
already-rounded end time `2.49` — whereas the claimed unrounded subtraction
`round2(max(0, 4.997 − 2.494)) = round2(2.503)` gives `2.50`. -/
theorem rounding_claim_cex :
    (words_to_lyrics_data [⟨"hello", 0, 2494/1000, none⟩] "f.mp3" (4997/1000)).map
        LyricsData.outro = some (251/100)
  ∧ pyRound2 (max 0 (4997/1000 - 2494/1000)) = 250/100
  ∧ (251:ℚ)/100 ≠ 250/100 := by
  refine ⟨?_, ?_, by norm_num⟩
  · simp [words_to_lyrics_data, detect_sentence_breaks, breakCond, hasSentencePunct,
      show List.range 1 = [0] from rfl, List.filter_cons, buildGroups, keptSlice,
      mkWordEntry, target_texts, identify_target_words, is_target_word,
      (show clean_word "hello" = "hello" by decide),
      (show pyLower "hello" = "hello" by decide),
      (show pyIsAlpha "hello" = true by decide),
      (show "hello".length = 5 from rfl), filler_words]
    norm_num [pyRound2, rndHalfEven]
  · norm_num [pyRound2, rndHalfEven]

set_option maxHeartbeats 2000000 in
/-- C9 amended: comparisons and gap arithmetic in sentence detection use the
raw, unrounded token times; the full-sentence `duration` subtraction uses the
raw, unrounded start/end of the group's first and last surviving tokens; the
document offset re-rounds the already-rounded first start time, which is
idempotent and hence unobservable; but the outro subtraction is performed on
the *already rounded* end time of the last surviving token. -/
theorem rounding_boundary_amended :
    (∀ (words : List Token) (i : ℕ),
        breakCond words i
          = (hasSentencePunct (words.getD i default).word
              || (decide (i < words.length - 1) &&
                  decide ((words.getD (i + 1) default).start
                    - (words.getD i default).«end» > 1/2))))
  ∧ (∀ (words : List Token) (fn : String) (td : ℚ) (d : LyricsData),
        words_to_lyrics_data words fn td = some d →
        ∀ fs ∈ d.full_sentence,
          ∃ t0 ∈ words, ∃ t1 ∈ words,
            fs.start_time = pyRound2 t0.start ∧ fs.end_time = pyRound2 t1.«end» ∧
            fs.duration = pyRound2 (t1.«end» - t0.start))
  ∧ (∀ (words : List Token) (fn : String) (td : ℚ) (d : LyricsData),
        words_to_lyrics_data words fn td = some d →
        ∀ fs0, d.full_sentence.head? = some fs0 →
          d.offset = pyRound2 fs0.start_time ∧ pyRound2 fs0.start_time = fs0.start_time)
  ∧ (∀ (words : List Token) (fn : String) (td : ℚ) (d : LyricsData),
        words_to_lyrics_data words fn td = some d → 0 < td →
        words.filter (fun w => clean_word w.word != "") ≠ [] →
          d.outro = pyRound2 (max 0 (td - pyRound2
            ((words.filter (fun w => clean_word w.word != "")).getLastD default).«end»))) := by
  refine ⟨?_, ?_, ?_, ?_⟩
  · intro words i
    unfold breakCond
    by_cases hp : hasSentencePunct (words.getD i default).word = true
    · rw [if_pos hp, hp]
      simp
    · rw [if_neg hp]
      rw [Bool.not_eq_true] at hp
      rw [hp]
      by_cases hi : i < words.length - 1
      · rw [if_pos hi]
        simp [hi]
      · rw [if_neg hi]
        simp [hi]
  · intro words fn td d h fs hfs
    have hw : words ≠ [] := by
      intro he
      subst he
      simp [words_to_lyrics_data] at h
    have hd := wtld_some_eq words fn td d h hw
    have hfull : d.full_sentence = (buildGroups words (target_texts words) 0
        (detect_sentence_breaks words)).2 := by rw [hd]
    rw [hfull] at hfs
    exact buildGroups_full_mem words (target_texts words)
      (detect_sentence_breaks words) 0 fs hfs
  · intro words fn td d h fs0 hfs0
    have hw : words ≠ [] := by
      intro he
      subst he
      simp [words_to_lyrics_data] at h
    have hd := wtld_some_eq words fn td d h hw
    set B := buildGroups words (target_texts words) 0 (detect_sentence_breaks words)
      with hB
    have hfull : d.full_sentence = B.2 := by rw [hd]
    have hoff : d.offset = pyRound2 (match B.2.head? with
        | some fs => fs.start_time
        | none => 0) := by rw [hd]
    rw [hfull] at hfs0
    constructor
    · rw [hoff, hfs0]
    · have hmem : fs0 ∈ B.2 := mem_of_head_opt _ _ hfs0
      obtain ⟨t0, _, t1, _, hst, _, _⟩ := buildGroups_full_mem words
        (target_texts words) (detect_sentence_breaks words) 0 fs0 hmem
      rw [hst, pyRound2_idem]
  · intro words fn td d h htd hne
    have hflat := wtld_flatten words fn td d h
    have hmapne : (words.filter (fun w => clean_word w.word != "")).map
        (mkWordEntry (target_texts words)) ≠ [] := by
      simp only [ne_eq, List.map_eq_nil_iff]
      exact hne
    have hsne : d.sentences ≠ [] := by
      intro hs
      rw [hs] at hflat
      simp only [List.map_nil, List.flatten_nil] at hflat
      exact hmapne hflat.symm
    obtain ⟨g1, hg1⟩ : ∃ g1, d.sentences.getLast? = some g1 := by
      rcases hgl : d.sentences.getLast? with _ | g1
      · rw [List.getLast?_eq_none_iff] at hgl
        exact absurd hgl hsne
      · exact ⟨g1, rfl⟩
    have hwne : ∀ x ∈ d.sentences.map SentenceGroup.words, x ≠ [] := by
      intro x hx
      obtain ⟨g, hgmem, rfl⟩ := List.mem_map.mp hx
      exact wtld_group_words_ne_nil words fn td d h g hgmem
    have hfl := flatten_getLast_opt (d.sentences.map SentenceGroup.words) hwne
    rw [hflat] at hfl
    obtain ⟨tl, htl⟩ : ∃ tl, (words.filter (fun w => clean_word w.word != "")).getLast?
        = some tl := by
      rcases htl : (words.filter (fun w => clean_word w.word != "")).getLast? with _ | tl
      · rw [List.getLast?_eq_none_iff] at htl
        exact absurd htl hne
      · exact ⟨tl, htl⟩
    have htlD : (words.filter (fun w => clean_word w.word != "")).getLastD default
        = tl := by
      rw [List.getLastD_eq_getLast?, htl]
      rfl
    have hlast1 : ((words.filter (fun w => clean_word w.word != "")).map
        (mkWordEntry (target_texts words))).getLast?
          = some (mkWordEntry (target_texts words) tl) := by
      rw [List.getLast?_map, htl]
      rfl
    have hgwords : (d.sentences.map SentenceGroup.words).getLastD [] = g1.words := by
      rw [List.getLastD_eq_getLast?, List.getLast?_map, hg1]
      rfl
    rw [hgwords, hlast1] at hfl
    have he1 : g1.words.getLast? = some (mkWordEntry (target_texts words) tl) :=
      hfl.symm
    rw [wtld_outro_lastEntry words fn td d h g1 _ hg1 he1, if_pos htd, htlD]
    rfl

/-- Witness for C9 amended: the duration, offset and outro conjuncts applied
to the concrete example document. -/
theorem rounding_boundary_amended_witness :
    (∃ t0 ∈ wExample, ∃ t1 ∈ wExample,
        (⟨"Hello world", 0, 1, 1⟩ : FullSentence).start_time = pyRound2 t0.start ∧
        (⟨"Hello world", 0, 1, 1⟩ : FullSentence).end_time = pyRound2 t1.«end» ∧
        (⟨"Hello world", 0, 1, 1⟩ : FullSentence).duration
          = pyRound2 (t1.«end» - t0.start))
  ∧ (dExample.offset = pyRound2 (⟨"Hello world", 0, 1, 1⟩ : FullSentence).start_time ∧
      pyRound2 (⟨"Hello world", 0, 1, 1⟩ : FullSentence).start_time
        = (⟨"Hello world", 0, 1, 1⟩ : FullSentence).start_time)
  ∧ dExample.outro = pyRound2 (max 0 ((10:ℚ) - pyRound2
      ((wExample.filter (fun w => clean_word w.word != "")).getLastD default).«end»)) :=
  ⟨rounding_boundary_amended.2.1 wExample "a/song.mp3" 10 dExample wtld_wExample
      ⟨"Hello world", 0, 1, 1⟩ (by simp [dExample]),
   rounding_boundary_amended.2.2.1 wExample "a/song.mp3" 10 dExample wtld_wExample
      ⟨"Hello world", 0, 1, 1⟩ (by simp [dExample]),
   rounding_boundary_amended.2.2.2 wExample "a/song.mp3" 10 dExample wtld_wExample
      (by norm_num) (by decide)⟩
